import Mathlib

/-!
Verification of the crawl-dispatch and ingestion subsystem of the llm_twin
repository, shallowly embedded in Lean.

Python strings are embedded as `List Char` (`Str`); Python `str` methods used
by the code (`split`, `strip`, `replace`, `startswith`, `endswith`, `lstrip`,
`rstrip`, `os.path.join`, `urllib.parse.urlparse(...).netloc`) are modelled as
Lean functions on `Str` with Python's semantics.  The MongoDB document store is
modelled as an in-memory list of documents per collection; Selenium, `git`
and the filesystem are modelled as explicit inputs / explicit state.
-/

namespace LlmTwin

/-- Python strings, embedded as lists of characters. -/
abbrev Str := List Char

/-- A Lean string literal viewed as a `Str`. -/
def lit (s : String) : Str := s.data

/-- The set of characters Python's `str.strip()` (no argument) removes:
ASCII whitespace, as in CPython's `str.isspace` for the ASCII range. -/
def isPySpace (c : Char) : Bool :=
  c == ' ' || c == '\t' || c == '\n' || c == '\r' || c == '\x0b' || c == '\x0c'

/-- Python `s.strip()`: remove leading and trailing whitespace. -/
def pyStrip (s : Str) : Str :=
  ((s.dropWhile isPySpace).reverse.dropWhile isPySpace).reverse

/-- Python `s.split(sep)` for a one-character separator `sep`: split at every
occurrence of the separator, keeping empty fields (so `"a  b".split(" ") =
["a", "", "b"]` and `"".split(" ") = [""]`). -/
def pySplit (sep : Char) : Str → List Str
  | [] => [[]]
  | c :: rest =>
    if c == sep then [] :: pySplit sep rest
    else
      match pySplit sep rest with
      | [] => [[c]]
      | t :: ts => (c :: t) :: ts

/-- Python `sep.join(parts)` for a one-character separator. -/
def pyJoin (sep : Char) : List Str → Str
  | [] => []
  | [t] => t
  | t :: ts => t ++ sep :: pyJoin sep ts

/-- Python `s.lstrip(t)` where `t` is a set of characters: drop all leading
characters that belong to `t`. -/
def pyLstrip (t : List Char) (s : Str) : Str := s.dropWhile (fun c => t.contains c)

/-- Python `s.rstrip(t)` where `t` is a set of characters: drop all trailing
characters that belong to `t`. -/
def pyRstrip (t : List Char) (s : Str) : Str :=
  (s.reverse.dropWhile (fun c => t.contains c)).reverse

/-- Python `s.startswith(p)` for a single pattern. -/
def pyStartsWith (p s : Str) : Bool := List.isPrefixOf p s

/-- Python `s.endswith(p)` for a single pattern. -/
def pyEndsWith (p s : Str) : Bool := List.isSuffixOf p s

/-- Python `s.startswith(tuple)`: true iff `s` starts with one of the
patterns. -/
def pyStartsWithAny (ps : List Str) (s : Str) : Bool := ps.any (fun p => pyStartsWith p s)

/-- Python `s.endswith(tuple)`: true iff `s` ends with one of the patterns. -/
def pyEndsWithAny (ps : List Str) (s : Str) : Bool := ps.any (fun p => pyEndsWith p s)

/-- Fuel-indexed worker for `pyReplace`.  Every recursive call consumes at
least one character of the subject string, so `s.length` fuel always
suffices; the fuel only discharges termination. -/
def pyReplaceF (pat rep : Str) : Nat → Str → Str
  | 0, s => s
  | _ + 1, [] => []
  | fuel + 1, c :: rest =>
    if pat ≠ [] ∧ pyStartsWith pat (c :: rest) then
      rep ++ pyReplaceF pat rep fuel ((c :: rest).drop pat.length)
    else
      c :: pyReplaceF pat rep fuel rest

/-- Python `s.replace(pat, rep)` for a non-empty `pat`: replace every
(left-to-right, non-overlapping) occurrence of `pat` by `rep`.  The sources
only call `replace` with the non-empty patterns `repo_path` and `" "`. -/
def pyReplace (pat rep s : Str) : Str := pyReplaceF pat rep s.length s

/-- Python `os.path.join(a, b)` for the shapes arising here (`b` never starts
with a separator): if `a` is empty the result is `b`; if `a` ends with `'/'`
the result is `a ++ b`; otherwise `a ++ "/" ++ b`. -/
def osPathJoin (a b : Str) : Str :=
  if a = [] then b
  else if a.getLast? = some '/' then a ++ b
  else a ++ '/' :: b

/-- Characters CPython's `urllib.parse` accepts inside a URL scheme. -/
def isSchemeChar (c : Char) : Bool :=
  c.isAlpha || c.isDigit || c == '+' || c == '-' || c == '.'

/-- `urllib.parse`: strip a leading `scheme:` from a URL if the text before
the first `':'` is a non-empty valid scheme beginning with a letter;
otherwise return the URL unchanged. -/
def dropScheme (url : Str) : Str :=
  match url.findIdx? (fun c => c == ':') with
  | none => url
  | some i =>
    let pre := url.take i
    if pre ≠ [] ∧ (pre.head?.elim false Char.isAlpha) ∧ pre.all isSchemeChar then
      url.drop (i + 1)
    else
      url

/-- `urllib.parse.urlparse(url).netloc`: after removing the scheme, if the
rest begins with `"//"` the netloc is everything up to the next `'/'`, `'?'`
or `'#'`; otherwise the netloc is empty. -/
def netloc (url : Str) : Str :=
  let rest := dropScheme url
  if pyStartsWith (lit "//") rest then
    (rest.drop 2).takeWhile (fun c => ¬ (c == '/' || c == '?' || c == '#'))
  else
    []

/-! ## Domain model (`src/domain`)

`UserDocument` (`first_name`, `last_name`, derived `full_name`) and the
`Document` family.  UUIDs are modelled as `Nat` values supplied at
construction time, mirroring "process-generated unique identifier, assigned
at construction". -/

/-- `src/domain/documents.py`: `UserDocument`. -/
structure UserDocument where
  id : Nat
  first_name : Str
  last_name : Str
deriving DecidableEq, Repr

/-- `UserDocument.full_name`: `f"{self.first_name} {self.last_name}"`. -/
def UserDocument.full_name (u : UserDocument) : Str :=
  u.first_name ++ ' ' :: u.last_name

/-- The `content` mapping of an article document (`"Title"`, `"Subtitle"`,
`"Content"`): field-name/value pairs whose values may be `None`, embedded as
an association list. -/
abbrev ArticleContent := List (Str × Option Str)

/-- The `content` mapping of a repository document: relative file path to
file text, embedded as an association list (a Python dict in insertion
order). -/
abbrev RepoContent := List (Str × Str)

/-- `src/domain/documents.py`: `ArticleDocument` (collection `"articles"`),
with the `Document` base fields and its `link`. -/
structure ArticleDocument where
  id : Nat
  content : ArticleContent
  platform : Str
  author_id : Nat
  author_full_name : Str
  link : Str
deriving DecidableEq, Repr

/-- `src/domain/documents.py` defines the repository document (named
`Repositorylink` there, imported as `RepositoryDocument` by
`github.py`): `Document` base fields plus `name` and `link`
(collection `"repositories"`). -/
structure RepositoryDocument where
  id : Nat
  content : RepoContent
  platform : Str
  author_id : Nat
  author_full_name : Str
  name : Str
  link : Str
deriving DecidableEq, Repr

/-- Modelled from the spec: the Document Store capability
`findByLink(collection, link) → Document | absent` used by every strategy's
dedup check (`self.model.find(link=link)` in the crawlers; the `find`
classmethod itself is not among the provided sources).  A collection is a
list of documents; the lookup returns the first document whose `link` equals
the query link. -/
def findByLink {α : Type} (getLink : α → Str) (coll : List α) (link : Str) : Option α :=
  coll.find? (fun d => getLink d == link)

/-- The articles collection. -/
abbrev ArticleColl := List ArticleDocument

/-- The repositories collection. -/
abbrev RepoColl := List RepositoryDocument

/-! ## `src/application/utils/split_user_full_name.py` -/

/-- The `ImproperlyConfigured` error raised on degenerate user names. -/
inductive NameError where
  | improperlyConfigured
deriving DecidableEq, Repr

/-- `split_user_full_name(user)`: raises `ImproperlyConfigured` when `user`
is `None`, empty, or strips to empty; otherwise splits on the space character
(`user.split(" ")`), a single token becoming both names, and a multi-token
name yielding `" ".join(name_tokens[:-1])` and `name_tokens[-1]`. -/
def split_user_full_name (user : Option Str) : Except NameError (Str × Str) :=
  match user with
  | none => .error .improperlyConfigured
  | some u =>
    if u = [] ∨ pyStrip u = [] then .error .improperlyConfigured
    else
      let name_tokens := pySplit ' ' u
      if name_tokens.length = 0 then .error .improperlyConfigured
      else if name_tokens.length = 1 then
        .ok (name_tokens.headI, name_tokens.headI)
      else
        .ok (pyJoin ' ' name_tokens.dropLast, name_tokens.getLastI)

/-! ## `src/application/crawlers/dispatcher.py`

`register` stores, for each registered domain, the regex pattern
`r"https://(www\.)?{}/*".format(re.escape(domain))`; `get_crawler` walks the
registry in insertion order and returns the first crawler whose pattern
`re.match`es the URL (match anchored at the start only), defaulting to
`CustomArticleCrawler`.  The restricted regex language these patterns live in
(literal characters — `re.escape` makes the domain all-literal — an optional
literal group, and a starred literal character) is embedded as `RxItem`, with
`re.match` semantics given by `rxMatch`. -/

/-- One item of a compiled pattern: a literal character, an optional literal
group `( ... )?`, or a starred character `c*`. -/
inductive RxItem where
  | ch (c : Char)
  | optGroup (s : Str)
  | starCh (c : Char)
deriving DecidableEq, Repr

/-- Consume a literal string from the front of the subject:
`dropLits g xs = some rest` exactly when `xs = g ++ rest`. -/
def dropLits : Str → Str → Option Str
  | [], xs => some xs
  | _ :: _, [] => none
  | l :: ls, x :: xs => if l == x then dropLits ls xs else none

/-- Kleene star over a single literal character `c` with continuation `k`:
accepts when some (possibly empty) run of `c` can be consumed from the front
and `k` accepts the remainder.  (Greedy versus lazy consumption does not
change the Boolean result, so backtracking is a plain disjunction.) -/
def starLoop (k : Str → Bool) (c : Char) : Str → Bool
  | [] => k []
  | x :: xs => k (x :: xs) || (c == x && starLoop k c xs)

/-- `re.match(pattern, s)` as a Boolean for the restricted pattern language:
can the whole pattern consume some prefix of `s`?  An optional group
`(...)?` either consumes its literal body or is skipped — the two
backtracking alternatives of the regex engine. -/
def rxMatch : List RxItem → Str → Bool
  | [], _ => true
  | .ch _ :: _, [] => false
  | .ch c :: ps, x :: xs => c == x && rxMatch ps xs
  | .optGroup g :: ps, xs =>
    (match dropLits g xs with
     | some rest => rxMatch ps rest
     | none => false) || rxMatch ps xs
  | .starCh c :: ps, xs => starLoop (rxMatch ps) c xs

/-- The pattern `register` stores for a domain:
`https://(www\.)?<re.escape(domain)>/*`.  `re.escape` escapes regex
metacharacters, so every domain character matches literally. -/
def mkPattern (domain : Str) : List RxItem :=
  (lit "https://").map .ch ++ [.optGroup (lit "www.")] ++ domain.map .ch ++ [.starCh '/']

/-- The crawler classes the dispatcher can return. -/
inductive Crawler where
  | linkedin
  | medium
  | github
  | customArticle
deriving DecidableEq, Repr

/-- The dispatcher's `_crawlers` registry: pattern/crawler pairs in
registration (insertion) order. -/
abbrev Registry := List (List RxItem × Crawler)

/-- `CrawlerDispatcher.register(domain, crawler)`: extract the netloc of the
given base URL and store the compiled pattern for it.  (The registry is a
dict keyed by the pattern string; the three registered patterns are pairwise
distinct, so insertion order is registration order.) -/
def registerCrawler (reg : Registry) (domain : Str) (crawler : Crawler) : Registry :=
  reg ++ [(mkPattern (netloc domain), crawler)]

/-- The dispatcher built by `crawl_links`:
`CrawlerDispatcher.build().register_linkedin().register_medium().register_github()`,
each `register_*` calling `register` with `https://linkedin.com`,
`https://medium.com`, `https://github.com` respectively. -/
def defaultRegistry : Registry :=
  registerCrawler
    (registerCrawler (registerCrawler [] (lit "https://linkedin.com") .linkedin)
      (lit "https://medium.com") .medium)
    (lit "https://github.com") .github

/-- `CrawlerDispatcher.get_crawler(url)`: first registered pattern that
`re.match`es the URL wins; `CustomArticleCrawler` when none match. -/
def get_crawler : Registry → Str → Crawler
  | [], _ => .customArticle
  | (pattern, crawler) :: rest, url =>
    if rxMatch pattern url then crawler else get_crawler rest url

/-! ## Extraction strategies (`src/application/crawlers`) -/

/-- The outcome of a strategy's `extract` when it returns normally: the
dedup short-circuit ("already exists") or a completed extraction. -/
inductive ExtractOutcome where
  | alreadyExists
  | created
deriving DecidableEq, Repr

/-- The rendered Medium page as scraped through Selenium/BeautifulSoup:
`title[0].string if title else None`, `subtitle[0].string if subtitle else
None`, `soup.get_text()`.  Selenium and BeautifulSoup are external
collaborators, so the scrape result is an input of the embedding. -/
structure ScrapedPage where
  title : Option Str
  subtitle : Option Str
  text : Str
deriving DecidableEq, Repr

/-- `MediumCrawler.extract` (`src/application/crawlers/medium.py`): dedup
lookup by `link`; on a hit, return immediately; on a miss, scrape the page,
build the `data` dict and save a new `ArticleDocument`.  `newId` is the
process-generated UUID of the new document; `writeOk` is false when the
store rejects the insert (`save` catches `WriteError` and returns `None`
without raising). -/
def MediumCrawler.extract (db : ArticleColl) (link : Str) (user : UserDocument)
    (page : ScrapedPage) (newId : Nat) (writeOk : Bool) : ArticleColl × ExtractOutcome :=
  match findByLink ArticleDocument.link db link with
  | some _ => (db, .alreadyExists)
  | none =>
    let data : ArticleContent :=
      [(lit "Title", page.title), (lit "Subtitle", page.subtitle),
       (lit "Content", some page.text)]
    let inst : ArticleDocument :=
      { id := newId, platform := lit "medium", content := data, link := link,
        author_id := user.id, author_full_name := user.full_name }
    (if writeOk then db ++ [inst] else db, .created)

/-- `repo_name = link.rstrip("/").split("/")[-1]` in `GithubCrawler.extract`. -/
def repoNameOf (link : Str) : Str := (pySplit '/' (pyRstrip ['/'] link)).getLastI

/-- `GithubCrawler.__init__` default `ignore` patterns
`(".git", ".toml", ".lock", ".png")`. -/
def defaultIgnore : List Str := [lit ".git", lit ".toml", lit ".lock", lit ".png"]

/-- Python dict assignment `tree[k] = v`: overwrite the value at an existing
key in place, otherwise append the new binding. -/
def dictInsert (tree : List (Str × Str)) (k v : Str) : List (Str × Str) :=
  if tree.any (fun kv => kv.1 == k) then
    tree.map (fun kv => if kv.1 == k then (k, v) else kv)
  else
    tree ++ [(k, v)]

/-- `dir = root.replace(repo_path, "").lstrip("/")` in `GithubCrawler.extract`. -/
def dirKeyOf (repoPath root : Str) : Str := pyLstrip ['/'] (pyReplace repoPath [] root)

/-- Inner loop of the walk in `GithubCrawler.extract`: for each file of the
current directory, skip it when its name ends with an ignored pattern,
otherwise store `f.read().replace(" ", "")` under `os.path.join(dir, file)`. -/
def addFiles (ignore : List Str) (dir : Str) (files : List (Str × Str))
    (tree : RepoContent) : RepoContent :=
  files.foldl
    (fun tree fc =>
      if pyEndsWithAny ignore fc.1 then tree
      else dictInsert tree (osPathJoin dir fc.1) (pyReplace [' '] [] fc.2))
    tree

/-- The walk of `GithubCrawler.extract` over the cloned tree.  `walk` is the
sequence of `os.walk` results, each an absolute directory `root` together
with the directory's files (name and text content as read with
`errors="ignore"`).  A directory whose repo-relative path starts with an
ignored pattern is skipped whole. -/
def buildTree (ignore : List Str) (repoPath : Str)
    (walk : List (Str × List (Str × Str))) : RepoContent :=
  walk.foldl
    (fun tree rf =>
      let dir := dirKeyOf repoPath rf.1
      if pyStartsWithAny ignore dir then tree
      else addFiles ignore dir rf.2 tree)
    []

/-- Where, if anywhere, the body of the `try` block in
`GithubCrawler.extract` raises: the `git clone` (`subprocess.run` with
`check=True`), the tree walk / file reads, or document
construction/persistence. -/
inductive GhFail where
  | cloneError
  | walkError
  | persistError
deriving DecidableEq, Repr

/-- The filesystem state `GithubCrawler.extract` mutates: the process
working directory and the set of existing scratch directories. -/
structure FsState where
  cwd : Str
  tmpDirs : List Str
deriving DecidableEq, Repr

/-- `GithubCrawler.extract` (`src/application/crawlers/github.py`): dedup
lookup by `link`; on a miss, create a scratch directory (`localTemp`, the
fresh name `tempfile.mkdtemp` returns), record the current working
directory, and inside a `try` block chdir into the scratch directory, clone,
walk the tree into `content`, and save a new `RepositoryDocument`; the
`finally` block restores the working directory and removes the scratch
directory on every exit path.  `fail` says where the `try` body raises, if
anywhere; the raised error is re-raised (`except Exception: raise`) after
the `finally` block runs. -/
def GithubCrawler.extract (ignore : List Str) (db : RepoColl) (link : Str)
    (user : UserDocument) (fs : FsState) (localTemp : Str)
    (walk : List (Str × List (Str × Str))) (fail : Option GhFail) (newId : Nat)
    (writeOk : Bool) : FsState × RepoColl × Except GhFail ExtractOutcome :=
  match findByLink RepositoryDocument.link db link with
  | some _ => (fs, db, .ok .alreadyExists)
  | none =>
    let repo_name := repoNameOf link
    let fs0 : FsState := { fs with tmpDirs := localTemp :: fs.tmpDirs }
    let original_cwd := fs0.cwd
    let tryRes : FsState × RepoColl × Except GhFail ExtractOutcome :=
      let fs1 : FsState := { fs0 with cwd := localTemp }
      match fail with
      | some .cloneError => (fs1, db, .error .cloneError)
      | _ =>
        let repo_path := osPathJoin localTemp repo_name
        match fail with
        | some .walkError => (fs1, db, .error .walkError)
        | _ =>
          let tree := buildTree ignore repo_path walk
          match fail with
          | some .persistError => (fs1, db, .error .persistError)
          | _ =>
            let inst : RepositoryDocument :=
              { id := newId, content := tree, name := repo_name, link := link,
                platform := lit "github", author_id := user.id,
                author_full_name := user.full_name }
            (fs1, if writeOk then db ++ [inst] else db, .ok .created)
    ({ cwd := original_cwd, tmpDirs := tryRes.1.tmpDirs.erase localTemp },
     tryRes.2.1, tryRes.2.2)

/-! ## Ingestion runner (`steps/etl/crawl_links.py`) -/

/-- An exception escaping a strategy's `extract` (caught by `_crawl_link`). -/
inductive CrawlErr where
  | extractFailed
deriving DecidableEq, Repr

/-- The per-domain metadata dict: domain name to
`{"successfull": _, "total": _}`, in insertion order. -/
abbrev Metadata := List (Str × Nat × Nat)

/-- The `"successfull"` counter recorded for a domain (0 when absent). -/
def mdSucc (md : Metadata) (d : Str) : Nat := ((md.lookup d).getD (0, 0)).1

/-- The `"total"` counter recorded for a domain (0 when absent). -/
def mdTotal (md : Metadata) (d : Str) : Nat := ((md.lookup d).getD (0, 0)).2

/-- Python dict assignment `metadata[domain] = entry`: overwrite in place or
append. -/
def mdUpsert (md : Metadata) (d : Str) (v : Nat × Nat) : Metadata :=
  if md.any (fun kv => kv.1 == d) then
    md.map (fun kv => if kv.1 == d then (d, v) else kv)
  else
    md ++ [(d, v)]

/-- `_add_to_metadata(metadata, domain, successfull_crawl)`: bump the
domain's `"successfull"` counter by `int(successfull_crawl)` and its
`"total"` counter by one, starting both from 0 for a new domain. -/
def add_to_metadata (md : Metadata) (domain : Str) (successfull_crawl : Bool) : Metadata :=
  mdUpsert md domain
    (mdSucc md domain + (if successfull_crawl then 1 else 0), mdTotal md domain + 1)

/-- `_crawl_link(dispatcher, link, user)`: resolve a crawler, take the
link's netloc, call `extract` and catch any exception, returning
`(True, domain)` on normal return and `(False, domain)` on a caught
exception.  The strategies' effects are summarized by the oracle
`extractRes`, giving for each crawler/link/user the outcome of `extract`
(normal return or raised exception). -/
def crawl_link (extractRes : Crawler → Str → UserDocument → Except CrawlErr Unit)
    (reg : Registry) (link : Str) (user : UserDocument) : Bool × Str :=
  let crawler := get_crawler reg link
  let crawler_domain := netloc link
  match extractRes crawler link user with
  | .ok _ => (true, crawler_domain)
  | .error _ => (false, crawler_domain)

/-- `crawl_links(user, links)` (the Ingestion Runner step): build the
default dispatcher, crawl every link in order accumulating the per-domain
metadata, and return the input link list (the metadata is attached to the
step context). -/
def crawl_links (extractRes : Crawler → Str → UserDocument → Except CrawlErr Unit)
    (user : UserDocument) (links : List Str) : List Str × Metadata :=
  let md := links.foldl
    (fun md link =>
      let r := crawl_link extractRes defaultRegistry link user
      add_to_metadata md r.2 r.1)
    []
  (links, md)

/-! ## `BaseSeleniumCrawler.scroll_page` (`src/application/crawlers/base.py`) -/

/-- The `while True` loop of `scroll_page`, embedded with explicit fuel (the
loop itself has no structural bound; the termination theorem shows
`scroll_limit + 2` fuel always suffices for a non-zero `scroll_limit`).
`heights` is the sequence of values `document.body.scrollHeight` evaluates
to: `heights 0` is the read before the loop, `heights i` the read after the
`i`-th scroll.  Each iteration scrolls once, waits 5 seconds, reads the new
height, and breaks when the height is unchanged or when `scroll_limit` is
truthy and `current_scroll > scroll_limit`.  The result is the number of
scroll steps performed, or `none` if the loop is still running after `fuel`
iterations. -/
def scrollLoop (heights : Nat → Int) (scroll_limit : Nat) :
    Nat → Int → Nat → Nat → Option Nat
  | 0, _, _, _ => none
  | fuel + 1, last_height, current_scroll, iter =>
    let new_height := heights (iter + 1)
    if new_height = last_height ∨ (scroll_limit ≠ 0 ∧ current_scroll > scroll_limit) then
      some (iter + 1)
    else
      scrollLoop heights scroll_limit fuel new_height (current_scroll + 1) (iter + 1)

/-- `scroll_page`: `current_scroll = 0`, `last_height` read before the loop,
then the loop above.  `scroll_limit` defaults to 5 in
`BaseSeleniumCrawler.__init__`. -/
def scroll_page (heights : Nat → Int) (scroll_limit : Nat) (fuel : Nat) : Option Nat :=
  scrollLoop heights scroll_limit fuel (heights 0) 0 0

/-! ## Observations used by the theorems -/

/-- Number of documents of the articles collection stored for a link. -/
def articleLinkCount (db : ArticleColl) (link : Str) : Nat :=
  db.countP (fun d => d.link == link)

/-- Number of documents of the repositories collection stored for a link. -/
def repoLinkCount (db : RepoColl) (link : Str) : Nat :=
  db.countP (fun d => d.link == link)

/-- Whether, under outcome oracle `extractRes`, the `extract` call that
`_crawl_link` makes for `link` returns normally (a created document or an
already-exists short-circuit) rather than raising. -/
def extractOk (extractRes : Crawler → Str → UserDocument → Except CrawlErr Unit)
    (user : UserDocument) (link : Str) : Bool :=
  match extractRes (get_crawler defaultRegistry link) link user with
  | .ok _ => true
  | .error _ => false

end LlmTwin

deriving instance DecidableEq for Except

namespace LlmTwin

/-! ## Helper lemmas: `pySplit`, `pyJoin`, `pyStrip` -/

theorem pySplit_ne_nil (sep : Char) (s : Str) : pySplit sep s ≠ [] := by
  cases s with
  | nil => simp [pySplit]
  | cons c rest =>
    simp only [pySplit]
    by_cases hc : c == sep
    · simp [hc]
    · simp only [hc]
      cases pySplit sep rest <;> simp

theorem pyJoin_pySplit (sep : Char) (s : Str) : pyJoin sep (pySplit sep s) = s := by
  induction s with
  | nil => simp [pySplit, pyJoin]
  | cons c rest ih =>
    simp only [pySplit]
    by_cases hc : c == sep
    · simp only [hc, if_true]
      obtain ⟨t, ts, ht⟩ : ∃ t ts, pySplit sep rest = t :: ts := by
        cases h : pySplit sep rest with
        | nil => exact absurd h (pySplit_ne_nil sep rest)
        | cons t ts => exact ⟨t, ts, rfl⟩
      rw [ht] at ih ⊢
      simp only [pyJoin]
      have hcse : c = sep := beq_iff_eq.mp hc
      rw [hcse, ih]
      rfl
    · simp only [hc, if_false, Bool.false_eq_true]
      cases h : pySplit sep rest with
      | nil => exact absurd h (pySplit_ne_nil sep rest)
      | cons t ts =>
        rw [h] at ih
        cases ts with
        | nil => simpa [pyJoin] using congrArg (c :: ·) ih
        | cons t' ts' =>
          simp only [pyJoin] at ih ⊢
          rw [List.cons_append, ih]

theorem pySplit_of_not_contains (sep : Char) (s : Str) (h : s.contains sep = false) :
    pySplit sep s = [s] := by
  induction s with
  | nil => simp [pySplit]
  | cons c rest ih =>
    rw [List.contains_cons, Bool.or_eq_false_iff] at h
    simp only [pySplit]
    have hc : (c == sep) = false :=
      beq_eq_false_iff_ne.mpr (Ne.symm (beq_eq_false_iff_ne.mp h.1))
    simp only [hc, Bool.false_eq_true, if_false]
    rw [ih h.2]

theorem pySplit_tokens_not_contain (sep : Char) (s : Str) :
    ∀ t ∈ pySplit sep s, t.contains sep = false := by
  induction s with
  | nil => simp [pySplit]
  | cons c rest ih =>
    intro t ht
    simp only [pySplit] at ht
    by_cases hc : c == sep
    · simp only [hc, if_true, List.mem_cons] at ht
      rcases ht with rfl | ht
      · simp
      · exact ih t ht
    · simp only [hc, Bool.false_eq_true, if_false] at ht
      cases h : pySplit sep rest with
      | nil => exact absurd h (pySplit_ne_nil sep rest)
      | cons t0 ts =>
        rw [h] at ht
        simp only [List.mem_cons] at ht
        rcases ht with rfl | ht
        · have h0 : t0.contains sep = false := ih t0 (h ▸ List.mem_cons_self t0 ts)
          have hcc : (sep == c) = false :=
            beq_eq_false_iff_ne.mpr (fun hsc => hc (beq_iff_eq.mpr hsc.symm))
          rw [List.contains_cons, hcc, h0]
          rfl
        · exact ih t (h ▸ List.mem_cons_of_mem t0 ht)

theorem pySplit_length_of_contains (sep : Char) (s : Str) (h : s.contains sep = true) :
    2 ≤ (pySplit sep s).length := by
  induction s with
  | nil => simp at h
  | cons c rest ih =>
    simp only [pySplit]
    by_cases hc : c == sep
    · simp only [hc, if_true, List.length_cons]
      have := pySplit_ne_nil sep rest
      have : 1 ≤ (pySplit sep rest).length := by
        cases hr : pySplit sep rest with
        | nil => exact absurd hr (pySplit_ne_nil sep rest)
        | cons a b => simp
      omega
    · have hrest : rest.contains sep = true := by
        rw [List.contains_cons] at h
        rcases Bool.or_eq_true_iff.mp h with h1 | h2
        · exact absurd (beq_iff_eq.mpr (beq_iff_eq.mp h1).symm) (by simpa using hc)
        · exact h2
      simp only [hc, Bool.false_eq_true, if_false]
      cases hr : pySplit sep rest with
      | nil => exact absurd hr (pySplit_ne_nil sep rest)
      | cons t ts =>
        have := ih hrest
        rw [hr] at this
        simpa using this

theorem pyJoin_append_last (sep : Char) (init : List Str) (l : Str) (h : init ≠ []) :
    pyJoin sep (init ++ [l]) = pyJoin sep init ++ sep :: l := by
  induction init with
  | nil => exact absurd rfl h
  | cons t ts ih =>
    cases ts with
    | nil => simp [pyJoin]
    | cons t' ts' =>
      have h' : t' :: ts' ≠ [] := by simp
      calc pyJoin sep ((t :: t' :: ts') ++ [l])
          = t ++ sep :: pyJoin sep ((t' :: ts') ++ [l]) := by
            simp only [List.cons_append]
            rfl
        _ = t ++ sep :: (pyJoin sep (t' :: ts') ++ sep :: l) := by rw [ih h']
        _ = pyJoin sep (t :: t' :: ts') ++ sep :: l := by simp [pyJoin]

theorem pyStrip_eq_nil_iff (s : Str) : pyStrip s = [] ↔ s.all isPySpace = true := by
  unfold pyStrip
  rw [List.reverse_eq_nil_iff, List.dropWhile_eq_nil_iff]
  constructor
  · intro h
    rw [List.all_eq_true]
    intro x hx
    have hsplit := List.takeWhile_append_dropWhile isPySpace s
    rw [← hsplit] at hx
    rcases List.mem_append.mp hx with h1 | h2
    · exact List.mem_takeWhile_imp h1
    · exact h x (List.mem_reverse.mpr h2)
  · intro h x hx
    rw [List.all_eq_true] at h
    have hmem : x ∈ List.dropWhile isPySpace s := List.mem_reverse.mp hx
    exact h x (List.Sublist.mem hmem (List.dropWhile_sublist isPySpace))

/-! ## Claims C6 and C7: name splitting -/

/-- C6, counterexample: the claim says splitting is "on whitespace", so that
`"Ada\tLovelace"` would yield `("Ada", "Lovelace")`.  The code splits on the
single space character only (`user.split(" ")`), so the tab is not a
separator and the whole string becomes both first and last name. -/
theorem c6_counterexample :
    split_user_full_name (some (lit "Ada\tLovelace")) ≠
        .ok (lit "Ada", lit "Lovelace")
    ∧ split_user_full_name (some (lit "Ada\tLovelace")) =
        .ok (lit "Ada\tLovelace", lit "Ada\tLovelace") := by
  exact ⟨by decide, by decide⟩

/-- C6 (amended): name splitting is a total deterministic function of the
input splitting on the single space character `" "` (not on general
whitespace): for every non-blank input, an input with no space yields that
input as both first and last name; an input containing a space splits into
space-separated tokens (empty tokens kept), the first name being all tokens
but the last rejoined with single spaces — so that first ++ " " ++ last
reassembles the input exactly — and the last name being the last token,
which contains no space.  The three spec examples hold as stated. -/
theorem c6_name_splitting (u : Str) (hne : ¬(u = [] ∨ pyStrip u = [])) :
    (u.contains ' ' = false → split_user_full_name (some u) = .ok (u, u))
    ∧ (u.contains ' ' = true →
        ∃ f l, split_user_full_name (some u) = .ok (f, l)
          ∧ f ++ ' ' :: l = u
          ∧ l.contains ' ' = false
          ∧ f = pyJoin ' ' ((pySplit ' ' u).dropLast)
          ∧ l = (pySplit ' ' u).getLastI)
    ∧ split_user_full_name (some (lit "Ada")) = .ok (lit "Ada", lit "Ada")
    ∧ split_user_full_name (some (lit "Ada Lovelace")) =
        .ok (lit "Ada", lit "Lovelace")
    ∧ split_user_full_name (some (lit "Grace Brewster Murray Hopper")) =
        .ok (lit "Grace Brewster Murray", lit "Hopper") := by
  refine ⟨?_, ?_, by decide, by decide, by decide⟩
  · intro hnc
    have hs : pySplit ' ' u = [u] := pySplit_of_not_contains ' ' u hnc
    simp [split_user_full_name, hne, hs]
  · intro hcont
    have hlen : 2 ≤ (pySplit ' ' u).length := pySplit_length_of_contains ' ' u hcont
    have hnn : pySplit ' ' u ≠ [] := pySplit_ne_nil ' ' u
    have hdl : (pySplit ' ' u).dropLast ≠ [] := by
      intro hh
      have hl := List.length_dropLast (pySplit ' ' u)
      rw [hh] at hl
      simp at hl
      omega
    have hlastI : (pySplit ' ' u).getLastI = (pySplit ' ' u).getLast hnn := by
      rw [List.getLastI_eq_getLast?, List.getLast?_eq_getLast _ hnn, Option.iget_some]
    refine ⟨pyJoin ' ' ((pySplit ' ' u).dropLast), (pySplit ' ' u).getLastI,
      ?_, ?_, ?_, rfl, rfl⟩
    · have h0 : ¬ (pySplit ' ' u).length = 0 := by omega
      have h1 : ¬ (pySplit ' ' u).length = 1 := by omega
      simp [split_user_full_name, hne, h0, h1]
    · calc pyJoin ' ' ((pySplit ' ' u).dropLast) ++ ' ' :: (pySplit ' ' u).getLastI
          = pyJoin ' ' ((pySplit ' ' u).dropLast ++ [(pySplit ' ' u).getLast hnn]) := by
            rw [hlastI, pyJoin_append_last ' ' _ _ hdl]
        _ = pyJoin ' ' (pySplit ' ' u) := by rw [List.dropLast_append_getLast hnn]
        _ = u := pyJoin_pySplit ' ' u
    · rw [hlastI]
      exact pySplit_tokens_not_contain ' ' u _ (List.getLast_mem hnn)

/-- C6 witness: the amended theorem applied to the concrete input
`"Ada"`. -/
theorem c6_name_splitting_witness :
    split_user_full_name (some (lit "Ada")) = .ok (lit "Ada", lit "Ada") :=
  (c6_name_splitting (lit "Ada") (by decide)).1 (by decide)

/-- C7: `split_user_full_name` raises `ImproperlyConfigured` exactly when
the input is `None`, empty, or consists only of whitespace (an empty string
vacuously consists only of whitespace); on every other input it returns a
pair without raising. -/
theorem c7_error_iff (u : Option Str) :
    split_user_full_name u = .error .improperlyConfigured
      ↔ (u = none ∨ ∃ s, u = some s ∧ s.all isPySpace = true) := by
  cases u with
  | none => simp [split_user_full_name]
  | some s =>
    simp only [split_user_full_name]
    by_cases hcond : s = [] ∨ pyStrip s = []
    · simp only [if_pos hcond]
      constructor
      · intro _
        right
        refine ⟨s, rfl, ?_⟩
        rcases hcond with rfl | hstrip
        · simp
        · exact (pyStrip_eq_nil_iff s).mp hstrip
      · intro _
        trivial
    · simp only [if_neg hcond]
      constructor
      · intro h
        exfalso
        have hnn := pySplit_ne_nil ' ' s
        have h0 : ¬ (pySplit ' ' s).length = 0 := by
          intro hh
          exact hnn (List.length_eq_zero.mp hh)
        by_cases h1 : (pySplit ' ' s).length = 1
        · simp [h0, h1] at h
        · simp [h0, h1] at h
      · intro h
        exfalso
        rcases h with h | ⟨t, ht, hall⟩
        · exact absurd h (by simp)
        · cases ht
          exact hcond (Or.inr ((pyStrip_eq_nil_iff s).mpr hall))

/-- C7 witness: whitespace-only input raises; via the iff at `"   "`. -/
theorem c7_error_iff_witness :
    split_user_full_name (some (lit "   ")) = .error .improperlyConfigured :=
  (c7_error_iff (some (lit "   "))).mpr (Or.inr ⟨lit "   ", rfl, by decide⟩)

/-! ## Helper lemmas: the dispatcher's pattern matching -/

theorem dropLits_eq_some (g xs rest : Str) :
    dropLits g xs = some rest ↔ xs = g ++ rest := by
  induction g generalizing xs with
  | nil => simp [dropLits]
  | cons l ls ih =>
    cases xs with
    | nil => simp [dropLits]
    | cons x xs' =>
      simp only [dropLits]
      by_cases hlx : (l == x) = true
      · obtain rfl : l = x := beq_iff_eq.mp hlx
        simp [ih]
      · simp only [if_neg hlx]
        constructor
        · intro hh
          exact absurd hh (by simp)
        · intro hh
          injection hh with h1 _
          exact absurd (beq_iff_eq.mpr h1.symm) hlx

theorem rxMatch_chs (g : Str) (ps : List RxItem) (xs : Str) :
    rxMatch (g.map RxItem.ch ++ ps) xs = true
      ↔ ∃ rest, xs = g ++ rest ∧ rxMatch ps rest = true := by
  induction g generalizing xs with
  | nil => simp
  | cons l ls ih =>
    cases xs with
    | nil =>
      simp only [List.map_cons, List.cons_append, rxMatch]
      constructor
      · intro hh
        exact absurd hh (by simp)
      · rintro ⟨rest, hr, _⟩
        exact absurd hr (by simp)
    | cons x xs' =>
      simp only [List.map_cons, List.cons_append, rxMatch, Bool.and_eq_true]
      constructor
      · rintro ⟨hlx, hrec⟩
        obtain rfl : l = x := beq_iff_eq.mp hlx
        rcases (ih xs').mp hrec with ⟨rest, hr1, hr2⟩
        exact ⟨rest, by rw [hr1], hr2⟩
      · rintro ⟨rest, hr1, hr2⟩
        injection hr1 with h1 h2
        exact ⟨beq_iff_eq.mpr h1.symm, (ih xs').mpr ⟨rest, h2, hr2⟩⟩

theorem rxMatch_optGroup (g : Str) (ps : List RxItem) (xs : Str) :
    rxMatch (.optGroup g :: ps) xs = true
      ↔ (∃ rest, xs = g ++ rest ∧ rxMatch ps rest = true) ∨ rxMatch ps xs = true := by
  simp only [rxMatch]
  cases h : dropLits g xs with
  | none =>
    simp only [Bool.or_eq_true]
    constructor
    · rintro (hf | ht)
      · exact absurd hf (by simp)
      · exact Or.inr ht
    · rintro (⟨rest, hr, _⟩ | ht)
      · have h2 := (dropLits_eq_some g xs rest).mpr hr
        rw [h] at h2
        exact absurd h2 (by simp)
      · exact Or.inr ht
  | some rest0 =>
    simp only [Bool.or_eq_true]
    constructor
    · rintro (hm | ht)
      · exact Or.inl ⟨rest0, (dropLits_eq_some g xs rest0).mp h, hm⟩
      · exact Or.inr ht
    · rintro (⟨rest, hr, hm⟩ | ht)
      · have h2 := (dropLits_eq_some g xs rest).mpr hr
        rw [h] at h2
        injection h2 with h3
        rw [h3]
        exact Or.inl hm
      · exact Or.inr ht

theorem rxMatch_star_end (c : Char) (xs : Str) :
    rxMatch [RxItem.starCh c] xs = true := by
  cases xs <;> simp [rxMatch, starLoop]

/-- The stored pattern `https://(www\.)?<domain>/*`, matched from the start
of the URL with `re.match`, accepts exactly the URLs that literally begin
with `https://` (optionally `https://www.`) followed by the domain text. -/
theorem rxMatch_mkPattern (d url : Str) :
    rxMatch (mkPattern d) url = true
      ↔ (∃ r, url = lit "https://" ++ (d ++ r))
        ∨ (∃ r, url = lit "https://www." ++ (d ++ r)) := by
  have hw : lit "https://www." = lit "https://" ++ lit "www." := by decide
  unfold mkPattern
  simp only [List.append_assoc]
  rw [rxMatch_chs]
  constructor
  · rintro ⟨rest, hu, hm⟩
    rw [List.singleton_append] at hm
    rcases (rxMatch_optGroup _ _ _).mp hm with ⟨r2, hr2, hm2⟩ | hm2
    · rcases (rxMatch_chs d _ r2).mp hm2 with ⟨r3, hr3, _⟩
      right
      refine ⟨r3, ?_⟩
      rw [hu, hr2, hr3, hw]
      simp only [List.append_assoc]
    · rcases (rxMatch_chs d _ rest).mp hm2 with ⟨r3, hr3, _⟩
      left
      exact ⟨r3, by rw [hu, hr3]⟩
  · rintro (⟨r, hu⟩ | ⟨r, hu⟩)
    · refine ⟨d ++ r, hu, ?_⟩
      rw [List.singleton_append]
      apply (rxMatch_optGroup _ _ _).mpr
      right
      exact (rxMatch_chs d _ _).mpr ⟨r, rfl, rxMatch_star_end '/' r⟩
    · refine ⟨lit "www." ++ (d ++ r), ?_, ?_⟩
      · rw [hu, hw]
        simp only [List.append_assoc]
      · rw [List.singleton_append]
        apply (rxMatch_optGroup _ _ _).mpr
        left
        exact ⟨d ++ r, rfl, (rxMatch_chs d _ _).mpr ⟨r, rfl, rxMatch_star_end '/' r⟩⟩

/-! ## Claims C2 and C3: dispatcher resolution -/

/-- C2: `get_crawler` returns the strategy bound to the first registered
pattern the URL matches, and `CustomArticleCrawler` when no registered
pattern matches; for the dispatcher built by the Ingestion Runner this
routes `medium.com`, `github.com` and `linkedin.com` URLs — with or without
a leading `www.` and with an arbitrary path suffix — to their bound
strategies, and URLs matching no registered domain to the generic fallback.
(Each match constructs the returned strategy freshly: `crawler()` in the
source; instance identity is outside this value-level embedding.) -/
theorem c2_dispatcher_routing :
    (∀ (reg : Registry) (url : Str),
        get_crawler reg url =
          (((reg.find? (fun pc => rxMatch pc.1 url)).map Prod.snd).getD .customArticle))
    ∧ (∀ p : Str,
        get_crawler defaultRegistry (lit "https://medium.com/" ++ p) = .medium
        ∧ get_crawler defaultRegistry (lit "https://www.medium.com/" ++ p) = .medium
        ∧ get_crawler defaultRegistry (lit "https://github.com/" ++ p) = .github
        ∧ get_crawler defaultRegistry (lit "https://www.github.com/" ++ p) = .github
        ∧ get_crawler defaultRegistry (lit "https://linkedin.com/" ++ p) = .linkedin
        ∧ get_crawler defaultRegistry (lit "https://www.linkedin.com/" ++ p) = .linkedin)
    ∧ (∀ url : Str,
        (∀ d ∈ [lit "linkedin.com", lit "medium.com", lit "github.com"],
            (¬ ∃ r, url = lit "https://" ++ (d ++ r))
            ∧ (¬ ∃ r, url = lit "https://www." ++ (d ++ r))) →
        get_crawler defaultRegistry url = .customArticle) := by
  refine ⟨?_, ?_, ?_⟩
  · intro reg url
    induction reg with
    | nil => rfl
    | cons pc rest ih =>
      by_cases hm : rxMatch pc.1 url
      · simp [get_crawler, List.find?, hm]
      · simp [get_crawler, List.find?, hm, ih]
  · intro p
    exact ⟨rfl, rfl, rfl, rfl, rfl, rfl⟩
  · intro url h
    have e1 : netloc (lit "https://linkedin.com") = lit "linkedin.com" := by decide
    have e2 : netloc (lit "https://medium.com") = lit "medium.com" := by decide
    have e3 : netloc (lit "https://github.com") = lit "github.com" := by decide
    have m1 : rxMatch (mkPattern (lit "linkedin.com")) url = false := by
      cases hm : rxMatch (mkPattern (lit "linkedin.com")) url
      · rfl
      · rcases (rxMatch_mkPattern _ _).mp hm with hpre | hpre
        · exact absurd hpre (h (lit "linkedin.com") (by simp)).1
        · exact absurd hpre (h (lit "linkedin.com") (by simp)).2
    have m2 : rxMatch (mkPattern (lit "medium.com")) url = false := by
      cases hm : rxMatch (mkPattern (lit "medium.com")) url
      · rfl
      · rcases (rxMatch_mkPattern _ _).mp hm with hpre | hpre
        · exact absurd hpre (h (lit "medium.com") (by simp)).1
        · exact absurd hpre (h (lit "medium.com") (by simp)).2
    have m3 : rxMatch (mkPattern (lit "github.com")) url = false := by
      cases hm : rxMatch (mkPattern (lit "github.com")) url
      · rfl
      · rcases (rxMatch_mkPattern _ _).mp hm with hpre | hpre
        · exact absurd hpre (h (lit "github.com") (by simp)).1
        · exact absurd hpre (h (lit "github.com") (by simp)).2
    show get_crawler defaultRegistry url = .customArticle
    simp only [defaultRegistry, registerCrawler, List.nil_append, e1, e2, e3]
    simp [get_crawler, m1, m2, m3]

/-- C2 witness: a URL matching no registered domain resolves to the
fallback. -/
theorem c2_dispatcher_routing_witness :
    get_crawler defaultRegistry (lit "x") = .customArticle := by
  apply c2_dispatcher_routing.2.2
  intro d _
  have h8 : (lit "https://").length = 8 := by decide
  have h12 : (lit "https://www.").length = 12 := by decide
  have h1 : (lit "x").length = 1 := by decide
  constructor
  · rintro ⟨r, hr⟩
    have hlen := congrArg List.length hr
    rw [List.length_append, List.length_append, h1, h8] at hlen
    omega
  · rintro ⟨r, hr⟩
    have hlen := congrArg List.length hr
    rw [List.length_append, List.length_append, h1, h12] at hlen
    omega

/-- C3, counterexample: matching is not by exact host equality.  The host of
`https://medium.community/x` is `medium.community`, which is not equal to
the registered domain `medium.com` (with or without a `www.` prefix), yet
resolution selects the Medium strategy, because the stored regex pattern
only anchors a prefix of the URL. -/
theorem c3_counterexample :
    get_crawler defaultRegistry (lit "https://medium.community/x") = .medium
    ∧ netloc (lit "https://medium.community/x") ≠ lit "medium.com"
    ∧ netloc (lit "https://medium.community/x") ≠ lit "www.medium.com" :=
  ⟨by decide, by decide, by decide⟩

/-- C3 (amended): dispatcher domain matching is by literal URL prefix, not
by exact host equality: the registered pattern for a domain matches a URL
iff the URL text begins with `https://` (optionally `https://www.`)
immediately followed by the domain text, with anything allowed afterwards.
Consequently a host that merely extends a registered domain (such as
`medium.community` extending `medium.com`) does select that domain's
strategy, while URLs of any other shape — including non-`https` schemes —
never match. -/
theorem c3_domain_matching_literal (d url : Str) :
    rxMatch (mkPattern d) url = true
      ↔ (∃ r, url = lit "https://" ++ (d ++ r))
        ∨ (∃ r, url = lit "https://www." ++ (d ++ r)) :=
  rxMatch_mkPattern d url

/-- C3 witness: the prefix characterization applied to the counterexample
URL. -/
theorem c3_domain_matching_literal_witness :
    rxMatch (mkPattern (lit "medium.com")) (lit "https://medium.community/x") = true :=
  (c3_domain_matching_literal (lit "medium.com") (lit "https://medium.community/x")).mpr
    (Or.inl ⟨lit "munity/x", by decide⟩)

/-! ## Claim C1: idempotent ingestion -/

theorem findByLink_none_iff {α : Type} (getLink : α → Str) (db : List α) (link : Str) :
    findByLink getLink db link = none
      ↔ db.countP (fun d => getLink d == link) = 0 := by
  unfold findByLink
  rw [List.find?_eq_none, List.countP_eq_zero]

theorem medium_extract_count_le_one (db : ArticleColl) (link : Str)
    (user : UserDocument) (page : ScrapedPage) (newId : Nat) (writeOk : Bool)
    (h : articleLinkCount db link ≤ 1) :
    articleLinkCount (MediumCrawler.extract db link user page newId writeOk).1 link ≤ 1 := by
  cases hf : findByLink ArticleDocument.link db link with
  | some d =>
    simp only [MediumCrawler.extract, hf]
    exact h
  | none =>
    have h0 : articleLinkCount db link = 0 :=
      (findByLink_none_iff ArticleDocument.link db link).mp hf
    simp only [MediumCrawler.extract, hf]
    cases writeOk with
    | false =>
      simpa [articleLinkCount] using Nat.le_of_eq h0 |>.trans (by omega)
    | true =>
      unfold articleLinkCount at h0 ⊢
      simp only [if_true, List.countP_append]
      simp [h0, List.countP_cons]

theorem github_extract_count_le_one (db : RepoColl) (link : Str)
    (user : UserDocument) (fs : FsState) (localTemp : Str)
    (walk : List (Str × List (Str × Str))) (fail : Option GhFail) (newId : Nat)
    (writeOk : Bool) (h : repoLinkCount db link ≤ 1) :
    repoLinkCount
        (GithubCrawler.extract defaultIgnore db link user fs localTemp walk fail
          newId writeOk).2.1 link ≤ 1 := by
  cases hf : findByLink RepositoryDocument.link db link with
  | some d =>
    simp only [GithubCrawler.extract, hf]
    exact h
  | none =>
    have h0 : repoLinkCount db link = 0 :=
      (findByLink_none_iff RepositoryDocument.link db link).mp hf
    simp only [GithubCrawler.extract, hf]
    rcases fail with _ | f
    · cases writeOk with
      | false => simpa using Nat.le_of_eq h0 |>.trans (by omega)
      | true =>
        unfold repoLinkCount at h0 ⊢
        simp only [List.countP_append]
        simp [h0, List.countP_cons]
    · cases f <;> simpa using Nat.le_of_eq h0 |>.trans (by omega)

/-- C1: ingestion is idempotent per link.  If the dedup lookup finds an
existing document for the link, `extract` (Medium and GitHub alike) returns
immediately with the collection unchanged — no second document is
constructed or inserted — and running `extract` twice on the same link never
leaves two documents for that link in the collection, whatever the scrape
results, write outcomes, failure points and generated ids of the two
calls. -/
theorem c1_ingestion_idempotent
    (adb : ArticleColl) (rdb : RepoColl) (link : Str) (user : UserDocument)
    (page page2 : ScrapedPage) (id1 id2 : Nat) (w1 w2 : Bool)
    (fs fs2 : FsState) (t1 t2 : Str)
    (walk walk2 : List (Str × List (Str × Str))) (fail fail2 : Option GhFail) :
    ((findByLink ArticleDocument.link adb link).isSome = true →
        MediumCrawler.extract adb link user page id1 w1 = (adb, .alreadyExists))
    ∧ ((findByLink RepositoryDocument.link rdb link).isSome = true →
        GithubCrawler.extract defaultIgnore rdb link user fs t1 walk fail id1 w1
          = (fs, rdb, .ok .alreadyExists))
    ∧ (articleLinkCount adb link ≤ 1 →
        articleLinkCount
          (MediumCrawler.extract
            (MediumCrawler.extract adb link user page id1 w1).1
            link user page2 id2 w2).1 link ≤ 1)
    ∧ (repoLinkCount rdb link ≤ 1 →
        repoLinkCount
          (GithubCrawler.extract defaultIgnore
            (GithubCrawler.extract defaultIgnore rdb link user fs t1 walk fail id1 w1).2.1
            link user fs2 t2 walk2 fail2 id2 w2).2.1 link ≤ 1) := by
  refine ⟨?_, ?_, ?_, ?_⟩
  · intro h
    obtain ⟨d, hd⟩ := Option.isSome_iff_exists.mp h
    simp [MediumCrawler.extract, hd]
  · intro h
    obtain ⟨d, hd⟩ := Option.isSome_iff_exists.mp h
    simp [GithubCrawler.extract, hd]
  · intro h
    exact medium_extract_count_le_one _ _ _ _ _ _
      (medium_extract_count_le_one _ _ _ _ _ _ h)
  · intro h
    exact github_extract_count_le_one _ _ _ _ _ _ _ _ _
      (github_extract_count_le_one _ _ _ _ _ _ _ _ _ h)

/-- C1 witness: a link already stored in the articles collection makes a
second `extract` a successful no-op on that very collection. -/
theorem c1_ingestion_idempotent_witness :
    MediumCrawler.extract
        [{ id := 7, content := [], platform := lit "medium", author_id := 3,
           author_full_name := lit "Ada Lovelace", link := lit "https://medium.com/a" }]
        (lit "https://medium.com/a")
        { id := 3, first_name := lit "Ada", last_name := lit "Lovelace" }
        { title := none, subtitle := none, text := [] } 9 true
      = ([{ id := 7, content := [], platform := lit "medium", author_id := 3,
            author_full_name := lit "Ada Lovelace", link := lit "https://medium.com/a" }],
         .alreadyExists) :=
  (c1_ingestion_idempotent
      [{ id := 7, content := [], platform := lit "medium", author_id := 3,
         author_full_name := lit "Ada Lovelace", link := lit "https://medium.com/a" }]
      [] (lit "https://medium.com/a")
      { id := 3, first_name := lit "Ada", last_name := lit "Lovelace" }
      { title := none, subtitle := none, text := [] }
      { title := none, subtitle := none, text := [] } 9 10 true true
      ⟨lit "/home", []⟩ ⟨lit "/home", []⟩ (lit "/tmp/a") (lit "/tmp/b")
      [] [] none none).1 (by decide)

/-! ## Claim C8: scratch workspace cleanup -/

/-- C8: whenever `GithubCrawler.extract` reaches the clone step (the dedup
lookup misses), then on every exit path — successful persist, rejected
write, or an exception raised at the clone, the tree walk, or document
construction/persistence — the `finally` block restores the process working
directory to its pre-clone value and removes the scratch directory. -/
theorem c8_github_workspace_restored
    (ignore : List Str) (db : RepoColl) (link : Str) (user : UserDocument)
    (fs : FsState) (localTemp : Str) (walk : List (Str × List (Str × Str)))
    (fail : Option GhFail) (newId : Nat) (writeOk : Bool)
    (hmiss : findByLink RepositoryDocument.link db link = none)
    (hfresh : localTemp ∉ fs.tmpDirs) :
    (GithubCrawler.extract ignore db link user fs localTemp walk fail newId
        writeOk).1.cwd = fs.cwd
    ∧ localTemp ∉
        (GithubCrawler.extract ignore db link user fs localTemp walk fail newId
          writeOk).1.tmpDirs := by
  have herase : (localTemp :: fs.tmpDirs).erase localTemp = fs.tmpDirs :=
    List.erase_cons_head localTemp fs.tmpDirs
  simp only [GithubCrawler.extract, hmiss]
  rcases fail with _ | f
  · cases writeOk <;> simp [herase, hfresh]
  · cases f <;> simp [herase, hfresh]

/-- C8 witness: a concrete miss-path invocation whose clone raises still
restores the working directory and removes the scratch directory. -/
theorem c8_github_workspace_restored_witness :
    (GithubCrawler.extract defaultIgnore [] (lit "https://github.com/u/r")
        { id := 3, first_name := lit "Ada", last_name := lit "Lovelace" }
        ⟨lit "/home", [lit "/tmp/other"]⟩ (lit "/tmp/scratch") [] (some .cloneError)
        5 true).1.cwd = lit "/home"
    ∧ (lit "/tmp/scratch") ∉
        (GithubCrawler.extract defaultIgnore [] (lit "https://github.com/u/r")
          { id := 3, first_name := lit "Ada", last_name := lit "Lovelace" }
          ⟨lit "/home", [lit "/tmp/other"]⟩ (lit "/tmp/scratch") [] (some .cloneError)
          5 true).1.tmpDirs :=
  c8_github_workspace_restored defaultIgnore [] (lit "https://github.com/u/r")
    { id := 3, first_name := lit "Ada", last_name := lit "Lovelace" }
    ⟨lit "/home", [lit "/tmp/other"]⟩ (lit "/tmp/scratch") [] (some .cloneError)
    5 true (by decide) (by decide)

/-! ## Claim C9: repository tree walk -/

theorem dictInsert_mem (tree : RepoContent) (k v : Str) (kv : Str × Str)
    (h : kv ∈ dictInsert tree k v) : kv ∈ tree ∨ kv = (k, v) := by
  unfold dictInsert at h
  by_cases hc : tree.any (fun kv => kv.1 == k)
  · rw [if_pos hc] at h
    rcases List.mem_map.mp h with ⟨kv0, hkv0, hmap⟩
    by_cases he : (kv0.1 == k) = true
    · right
      rw [← hmap]
      simp [he]
    · left
      rw [← hmap]
      simp only [if_neg he]
      exact hkv0
  · rw [if_neg hc] at h
    rcases List.mem_append.mp h with h1 | h2
    · exact Or.inl h1
    · right
      simpa using h2

theorem addFiles_mem (ignore : List Str) (dir : Str) (files : List (Str × Str))
    (tree : RepoContent) (kv : Str × Str) (h : kv ∈ addFiles ignore dir files tree) :
    kv ∈ tree
    ∨ ∃ fname content, (fname, content) ∈ files
        ∧ pyEndsWithAny ignore fname = false
        ∧ kv = (osPathJoin dir fname, pyReplace [' '] [] content) := by
  induction files generalizing tree with
  | nil => exact Or.inl (by simpa [addFiles] using h)
  | cons fc rest ih =>
    rw [addFiles, List.foldl_cons, ← addFiles] at h
    rcases ih _ h with h1 | ⟨fname, content, hmem, hig, hkv⟩
    · by_cases hig0 : pyEndsWithAny ignore fc.1 = true
      · rw [if_pos hig0] at h1
        exact Or.inl h1
      · rw [if_neg hig0] at h1
        rcases dictInsert_mem _ _ _ _ h1 with h2 | h2
        · exact Or.inl h2
        · right
          exact ⟨fc.1, fc.2, List.mem_cons_self fc rest,
            Bool.not_eq_true _ ▸ (by simpa using hig0), h2⟩
    · right
      exact ⟨fname, content, List.mem_cons_of_mem fc hmem, hig, hkv⟩

theorem buildTree_mem (ignore : List Str) (repoPath : Str)
    (walk : List (Str × List (Str × Str))) (acc : RepoContent) (kv : Str × Str)
    (h : kv ∈ walk.foldl
      (fun tree rf =>
        let dir := dirKeyOf repoPath rf.1
        if pyStartsWithAny ignore dir then tree
        else addFiles ignore dir rf.2 tree) acc) :
    kv ∈ acc
    ∨ ∃ root files, (root, files) ∈ walk
        ∧ pyStartsWithAny ignore (dirKeyOf repoPath root) = false
        ∧ ∃ fname content, (fname, content) ∈ files
            ∧ pyEndsWithAny ignore fname = false
            ∧ kv = (osPathJoin (dirKeyOf repoPath root) fname,
                    pyReplace [' '] [] content) := by
  induction walk generalizing acc with
  | nil => exact Or.inl (by simpa using h)
  | cons rf rest ih =>
    rw [List.foldl_cons] at h
    rcases ih _ h with h1 | ⟨root, files, hmem, hdir, rest'⟩
    · by_cases hig : pyStartsWithAny ignore (dirKeyOf repoPath rf.1) = true
      · simp only [if_pos hig] at h1
        exact Or.inl h1
      · simp only [if_neg hig] at h1
        rcases addFiles_mem _ _ _ _ _ h1 with h2 | ⟨fname, content, hf, hfe, hkv⟩
        · exact Or.inl h2
        · right
          exact ⟨rf.1, rf.2, by simp, by simpa using hig,
            fname, content, hf, hfe, hkv⟩
    · right
      exact ⟨root, files, List.mem_cons_of_mem rf hmem, hdir, rest'⟩

/-- C9: every entry of the content mapping built by the repository walk
comes from a walked directory whose repo-relative path does not start with
an ignored pattern and from a file whose name does not end with an ignored
pattern; the entry is keyed by the file path relative to the repository root
(`os.path.join` of the relative directory and the file name) and its value
is the file's text with all spaces removed.  In particular (second
conjunct), a tree containing a lockfile and a `.git` directory yields a
mapping containing neither. -/
theorem c9_repo_tree_exclusions :
    (∀ (ignore : List Str) (repoPath : Str) (walk : List (Str × List (Str × Str)))
        (k v : Str), (k, v) ∈ buildTree ignore repoPath walk →
        ∃ root files, (root, files) ∈ walk
          ∧ pyStartsWithAny ignore (dirKeyOf repoPath root) = false
          ∧ ∃ fname content, (fname, content) ∈ files
              ∧ pyEndsWithAny ignore fname = false
              ∧ (k, v) = (osPathJoin (dirKeyOf repoPath root) fname,
                          pyReplace [' '] [] content))
    ∧ buildTree defaultIgnore (lit "/w/repo")
        [(lit "/w/repo", [(lit "main.py", lit "x = 1"), (lit "poetry.lock", lit "[]")]),
         (lit "/w/repo/.git", [(lit "HEAD", lit "ref")])]
        = [(lit "main.py", lit "x=1")] := by
  constructor
  · intro ignore repoPath walk k v h
    rcases buildTree_mem ignore repoPath walk [] (k, v) h with h1 | h1
    · simp at h1
    · exact h1
  · decide

/-- C9 witness: the provenance statement applied to the one entry of the
concrete walked tree. -/
theorem c9_repo_tree_exclusions_witness :
    ∃ root files,
      (root, files) ∈ [(lit "/w/repo",
          [(lit "main.py", lit "x = 1"), (lit "poetry.lock", lit "[]")]),
        (lit "/w/repo/.git", [(lit "HEAD", lit "ref")])]
      ∧ pyStartsWithAny defaultIgnore (dirKeyOf (lit "/w/repo") root) = false
      ∧ ∃ fname content, (fname, content) ∈ files
          ∧ pyEndsWithAny defaultIgnore fname = false
          ∧ (lit "main.py", lit "x=1")
              = (osPathJoin (dirKeyOf (lit "/w/repo") root) fname,
                 pyReplace [' '] [] content) :=
  c9_repo_tree_exclusions.1 defaultIgnore (lit "/w/repo")
    [(lit "/w/repo", [(lit "main.py", lit "x = 1"), (lit "poetry.lock", lit "[]")]),
     (lit "/w/repo/.git", [(lit "HEAD", lit "ref")])]
    (lit "main.py") (lit "x=1") (by decide)

/-! ## Claim C10: bounded scrolling -/

/-- C10, counterexample: with the default `scroll_limit = 5` and a page
height that strictly grows at every read, `scroll_page` performs 7 scroll
steps, exceeding the claimed cap of 5: the loop breaks on
`current_scroll > scroll_limit`, and `current_scroll` increments only after
a non-breaking iteration, so iterations with `current_scroll = 0..6` all
scroll. -/
theorem c10_counterexample :
    scroll_page (fun i => (i : Int)) 5 10 = some 7 ∧ 5 < 7 :=
  ⟨by decide, by omega⟩

theorem scrollLoop_bound (heights : Nat → Int) (limit : Nat) (hl : limit ≠ 0) :
    ∀ (fuel c iter : Nat) (lastH : Int), c ≤ limit + 1 → limit + 2 - c ≤ fuel →
      ∃ n, scrollLoop heights limit fuel lastH c iter = some n
        ∧ n ≤ iter + (limit + 2 - c) := by
  intro fuel
  induction fuel with
  | zero =>
    intro c iter lastH hc hf
    omega
  | succ f ih =>
    intro c iter lastH hc hf
    simp only [scrollLoop]
    by_cases hcond : heights (iter + 1) = lastH ∨ (limit ≠ 0 ∧ c > limit)
    · rw [if_pos hcond]
      exact ⟨iter + 1, rfl, by omega⟩
    · rw [if_neg hcond]
      have hcl : c ≤ limit := by
        by_cases hgt : c > limit
        · exact absurd (Or.inr ⟨hl, hgt⟩) hcond
        · omega
      rcases ih (c + 1) (iter + 1) (heights (iter + 1)) (by omega) (by omega) with
        ⟨n, hn, hb⟩
      exact ⟨n, hn, by omega⟩

theorem scrollLoop_first_stall (heights : Nat → Int) (limit : Nat) :
    ∀ (i fuel iter : Nat),
      (∀ j, j < i → heights (iter + j + 1) ≠ heights (iter + j)) →
      heights (iter + i + 1) = heights (iter + i) →
      iter + i ≤ limit + 1 →
      i + 1 ≤ fuel →
      scrollLoop heights limit fuel (heights iter) iter iter = some (iter + i + 1) := by
  intro i
  induction i with
  | zero =>
    intro fuel iter _ hstall _ hfuel
    cases fuel with
    | zero => omega
    | succ f =>
      simp only [scrollLoop]
      rw [if_pos (Or.inl (by simpa using hstall))]
  | succ i' ih =>
    intro fuel iter hne hstall hcap hfuel
    cases fuel with
    | zero => omega
    | succ f =>
      simp only [scrollLoop]
      have hch : heights (iter + 1) ≠ heights iter := by
        have := hne 0 (by omega)
        simpa using this
      have hnocap : ¬ (limit ≠ 0 ∧ iter > limit) := by
        rintro ⟨_, hgt⟩
        omega
      rw [if_neg (by
        rintro (h1 | h2)
        · exact hch h1
        · exact hnocap h2)]
      have hrec := ih f (iter + 1)
        (fun j hj => by
          have := hne (j + 1) (by omega)
          have harith : iter + (j + 1) + 1 = iter + 1 + j + 1 := by omega
          have harith2 : iter + (j + 1) = iter + 1 + j := by omega
          rw [harith, harith2] at this
          exact this)
        (by
          have harith : iter + (i' + 1) + 1 = iter + 1 + i' + 1 := by omega
          have harith2 : iter + (i' + 1) = iter + 1 + i' := by omega
          rw [harith, harith2] at hstall
          exact hstall)
        (by omega) (by omega)
      rw [hrec]
      have harith : iter + 1 + i' + 1 = iter + (i' + 1) + 1 := by omega
      rw [harith]

/-- C10 (amended): for every sequence of observed page heights and a
non-zero step cap, the loop of `scroll_page` terminates — `scroll_limit + 2`
fuel suffices (so 7 with the default `scroll_limit = 5`) — performing at
most `scroll_limit + 2` scroll steps (not `scroll_limit` steps as claimed),
and it stops as soon as the page height is unchanged between consecutive
reads: if the heights differ at every earlier consecutive pair and the read
after scroll `i + 1` first repeats the previous height, with `i` inside the
cap window, the loop stops after exactly `i + 1` scroll steps.  (The claim's
settle wait, `time.sleep(5)`, is real time and outside the embedding.) -/
theorem c10_scroll_bounded (heights : Nat → Int) (limit fuel : Nat)
    (hl : limit ≠ 0) (hf : limit + 2 ≤ fuel) :
    (∃ n, scroll_page heights limit fuel = some n ∧ n ≤ limit + 2)
    ∧ (∀ i : Nat, (∀ j, j < i → heights (j + 1) ≠ heights j) →
        heights (i + 1) = heights i → i ≤ limit + 1 →
        scroll_page heights limit fuel = some (i + 1)) := by
  constructor
  · have hb := scrollLoop_bound heights limit hl fuel 0 0 (heights 0) (by omega) (by omega)
    simpa [scroll_page] using hb
  · intro i hne hstall hcap
    have h := scrollLoop_first_stall heights limit i fuel 0
      (fun j hj => by simpa using hne j hj)
      (by simpa using hstall)
      (by omega) (by omega)
    simpa [scroll_page] using h

/-- C10 witness: the bound applied to the strictly growing height sequence
under the default cap, and the stop condition applied to heights 0, 1, 1,
… — one growth step, then a stall — stopping after exactly 2 scroll
steps. -/
theorem c10_scroll_bounded_witness :
    (∃ n, scroll_page (fun i => (i : Int)) 5 7 = some n ∧ n ≤ 5 + 2)
    ∧ scroll_page (fun i => if i = 0 then (0 : Int) else 1) 5 7 = some (1 + 1) :=
  ⟨(c10_scroll_bounded (fun i => (i : Int)) 5 7 (by decide) (by decide)).1,
   (c10_scroll_bounded (fun i => if i = 0 then (0 : Int) else 1) 5 7
      (by decide) (by decide)).2 1
     (fun j hj => by
       have hj0 : j = 0 := by omega
       subst hj0
       decide)
     (by decide) (by decide)⟩

/-! ## Helper lemmas: the per-domain metadata dict -/

theorem lookup_isSome_of_any (md : Metadata) (d : Str)
    (h : md.any (fun kv => kv.1 == d) = true) : ∃ w, List.lookup d md = some w := by
  induction md with
  | nil => simp at h
  | cons kv t ih =>
    obtain ⟨k, b⟩ := kv
    rw [List.any_cons] at h
    by_cases hk : (k == d) = true
    · obtain rfl : k = d := beq_iff_eq.mp hk
      exact ⟨b, by simp [List.lookup_cons]⟩
    · have ht : t.any (fun kv => kv.1 == d) = true := by
        rcases Bool.or_eq_true_iff.mp h with h1 | h2
        · exact absurd h1 hk
        · exact h2
      rcases ih ht with ⟨w, hw⟩
      refine ⟨w, ?_⟩
      have hdk : (d == k) = false :=
        beq_eq_false_iff_ne.mpr (fun hh => hk (beq_iff_eq.mpr hh.symm))
      simp [List.lookup_cons, hdk, hw]

theorem lookup_map_overwrite (d : Str) (v : Nat × Nat) (d' : Str) (md : Metadata) :
    List.lookup d' (md.map (fun kv => if kv.1 == d then (d, v) else kv))
      = if d' = d then (List.lookup d md).map (fun _ => v) else List.lookup d' md := by
  induction md with
  | nil => simp
  | cons kv t ih =>
    obtain ⟨k, b⟩ := kv
    rw [List.map_cons]
    by_cases hk : (k == d) = true
    · rw [if_pos hk]
      have hdk2 : (d == k) = true := beq_iff_eq.mpr (beq_iff_eq.mp hk).symm
      by_cases hd' : d' = d
      · have hdd : (d' == d) = true := beq_iff_eq.mpr hd'
        rw [if_pos hd']
        simp only [List.lookup_cons, hdd, hdk2]
        rfl
      · have hne : (d' == d) = false := beq_eq_false_iff_ne.mpr hd'
        have hne2 : (d' == k) = false :=
          beq_eq_false_iff_ne.mpr (fun hh => hd' (hh.trans (beq_iff_eq.mp hk)))
        rw [if_neg hd']
        simp only [List.lookup_cons, hne, hne2]
        rw [ih, if_neg hd']
    · rw [if_neg hk]
      by_cases hd' : d' = d
      · have hdk : (d' == k) = false :=
          beq_eq_false_iff_ne.mpr (fun hh => hk (beq_iff_eq.mpr (hh.symm.trans hd')))
        have hdk3 : (d == k) = false :=
          beq_eq_false_iff_ne.mpr (fun hh => hk (beq_iff_eq.mpr hh.symm))
        rw [if_pos hd']
        simp only [List.lookup_cons, hdk, hdk3]
        rw [ih, if_pos hd']
      · by_cases hdk' : (d' == k) = true
        · rw [if_neg hd']
          simp only [List.lookup_cons, hdk']
        · rw [if_neg hd']
          simp only [List.lookup_cons, hdk']
          rw [ih, if_neg hd']

theorem lookup_append_single (md : Metadata) (d : Str) (v : Nat × Nat) (d' : Str)
    (hall : ∀ kv ∈ md, (kv.1 == d) = false) :
    List.lookup d' (md ++ [(d, v)]) = if d' = d then some v else List.lookup d' md := by
  induction md with
  | nil =>
    by_cases hd' : d' = d
    · subst hd'
      simp [List.lookup_cons]
    · have hne : (d' == d) = false := beq_eq_false_iff_ne.mpr hd'
      simp [List.lookup_cons, hne, hd']
  | cons kv t ih =>
    obtain ⟨k, b⟩ := kv
    have hk : (k == d) = false := hall (k, b) (List.mem_cons_self _ _)
    by_cases hdk : (d' == k) = true
    · have hne : d' ≠ d := by
        obtain rfl : d' = k := beq_iff_eq.mp hdk
        exact fun hh => absurd (beq_iff_eq.mpr hh) (by simp [hk])
      simp [List.lookup_cons, hdk, hne]
    · have ih' := ih (fun kv hm => hall kv (List.mem_cons_of_mem _ hm))
      simp [List.lookup_cons, hdk, ih']

theorem lookup_mdUpsert (md : Metadata) (d : Str) (v : Nat × Nat) (d' : Str) :
    List.lookup d' (mdUpsert md d v) = if d' = d then some v else List.lookup d' md := by
  unfold mdUpsert
  by_cases hany : md.any (fun kv => kv.1 == d) = true
  · rw [if_pos hany, lookup_map_overwrite]
    by_cases hd' : d' = d
    · obtain ⟨w, hw⟩ := lookup_isSome_of_any md d hany
      simp [hd', hw]
    · simp [hd']
  · rw [if_neg hany]
    have hall : ∀ kv ∈ md, (kv.1 == d) = false := by
      intro kv hm
      cases hkv : (kv.1 == d)
      · rfl
      · exact absurd (List.any_eq_true.mpr ⟨kv, hm, hkv⟩) hany
    exact lookup_append_single md d v d' hall

theorem mdSucc_add_to_metadata (md : Metadata) (d : Str) (s : Bool) (d' : Str) :
    mdSucc (add_to_metadata md d s) d'
      = if d' = d then mdSucc md d + (if s then 1 else 0) else mdSucc md d' := by
  unfold add_to_metadata mdSucc
  rw [lookup_mdUpsert]
  by_cases hd' : d' = d <;> simp [hd']

theorem mdTotal_add_to_metadata (md : Metadata) (d : Str) (s : Bool) (d' : Str) :
    mdTotal (add_to_metadata md d s) d'
      = if d' = d then mdTotal md d + 1 else mdTotal md d' := by
  unfold add_to_metadata mdTotal
  rw [lookup_mdUpsert]
  by_cases hd' : d' = d <;> simp [hd']

theorem crawl_link_eq (e : Crawler → Str → UserDocument → Except CrawlErr Unit)
    (link : Str) (user : UserDocument) :
    crawl_link e defaultRegistry link user = (extractOk e user link, netloc link) := by
  unfold crawl_link extractOk
  cases h : e (get_crawler defaultRegistry link) link user <;> simp [h]

theorem crawl_fold_counts (e : Crawler → Str → UserDocument → Except CrawlErr Unit)
    (user : UserDocument) (links : List Str) (md0 : Metadata) (d : Str) :
    (mdSucc (links.foldl
        (fun md link =>
          let r := crawl_link e defaultRegistry link user
          add_to_metadata md r.2 r.1) md0) d
      = mdSucc md0 d + links.countP (fun l => netloc l == d && extractOk e user l))
    ∧ (mdTotal (links.foldl
        (fun md link =>
          let r := crawl_link e defaultRegistry link user
          add_to_metadata md r.2 r.1) md0) d
      = mdTotal md0 d + links.countP (fun l => netloc l == d)) := by
  induction links generalizing md0 with
  | nil => simp
  | cons l t ih =>
    rw [List.foldl_cons]
    have hstep :
        (let r := crawl_link e defaultRegistry l user
         add_to_metadata md0 r.2 r.1)
          = add_to_metadata md0 (netloc l) (extractOk e user l) := by
      rw [crawl_link_eq]
    rw [hstep]
    rcases ih (add_to_metadata md0 (netloc l) (extractOk e user l)) with ⟨ihs, iht⟩
    rw [List.countP_cons, List.countP_cons]
    constructor
    · rw [ihs, mdSucc_add_to_metadata]
      by_cases hdl : d = netloc l
      · rw [hdl]
        cases hok : extractOk e user l <;> simp [hok]
        omega
      · have hb : (netloc l == d) = false :=
          beq_eq_false_iff_ne.mpr (fun hh => hdl hh.symm)
        simp [if_neg hdl, hb]
    · rw [iht, mdTotal_add_to_metadata]
      by_cases hdl : d = netloc l
      · rw [hdl]
        simp
        omega
      · have hb : (netloc l == d) = false :=
          beq_eq_false_iff_ne.mpr (fun hh => hdl hh.symm)
        simp [if_neg hdl, hb]

theorem countP_lt_of_mem {α : Type} (p q : α → Bool) (xs : List α)
    (hpq : ∀ a ∈ xs, p a = true → q a = true) (x : α) (hx : x ∈ xs)
    (hqx : q x = true) (hpx : p x = false) :
    xs.countP p < xs.countP q := by
  induction xs with
  | nil => cases hx
  | cons a t ih =>
    rw [List.countP_cons, List.countP_cons]
    rcases List.mem_cons.mp hx with rfl | hxt
    · have hle : t.countP p ≤ t.countP q :=
        List.countP_mono_left (fun b hb hp => hpq b (List.mem_cons_of_mem _ hb) hp)
      simp [hpx, hqx]
      omega
    · have hlt := ih (fun b hb hp => hpq b (List.mem_cons_of_mem _ hb) hp) hxt
      have hca : (if p a = true then 1 else 0) ≤ (if q a = true then 1 else 0) := by
        by_cases hpa : p a = true
        · simp [hpa, hpq a (List.mem_cons_self _ _) hpa]
        · simp [hpa]
      omega

/-! ## Claims C4 and C5: the Ingestion Runner -/

/-- C5: `crawl_links` returns the input link list unchanged, and for every
domain the recorded `"total"` equals the number of input links whose host
(netloc) is that domain while the recorded `"successfull"` equals the number
of those links whose `extract` returned normally (a created document and an
already-exists short-circuit both return normally, so both count as
successful; domains of no input link have both counters absent, read as
zero).  The spec's concrete example is the instance
`links = [a.com/1 ok, a.com/2 fail, b.com/1 ok]` of this statement. -/
theorem c5_aggregation (e : Crawler → Str → UserDocument → Except CrawlErr Unit)
    (user : UserDocument) (links : List Str) (d : Str) :
    (crawl_links e user links).1 = links
    ∧ mdTotal (crawl_links e user links).2 d
        = links.countP (fun l => netloc l == d)
    ∧ mdSucc (crawl_links e user links).2 d
        = links.countP (fun l => netloc l == d && extractOk e user l) := by
  refine ⟨rfl, ?_, ?_⟩
  · have h := (crawl_fold_counts e user links [] d).2
    simpa [crawl_links, mdTotal] using h
  · have h := (crawl_fold_counts e user links [] d).1
    simpa [crawl_links, mdSucc] using h

/-- C4: per-link failure isolation.  When the `extract` call for some link
of the batch raises, `_crawl_link` catches the exception: the batch still
returns the full link list to the caller (never aborts or propagates), the
failing link's domain records that link in `"total"` but not in
`"successfull"` (a strict gap), and every link of the batch — in particular
the other N−1 — still contributes its own outcome to the per-domain
counters. -/
theorem c4_failure_isolation (e : Crawler → Str → UserDocument → Except CrawlErr Unit)
    (user : UserDocument) (links : List Str) (l : Str)
    (hmem : l ∈ links) (hfail : extractOk e user l = false) :
    (crawl_links e user links).1 = links
    ∧ mdSucc (crawl_links e user links).2 (netloc l)
        < mdTotal (crawl_links e user links).2 (netloc l)
    ∧ (∀ d : Str,
        mdSucc (crawl_links e user links).2 d
          = links.countP (fun x => netloc x == d && extractOk e user x)
        ∧ mdTotal (crawl_links e user links).2 d
          = links.countP (fun x => netloc x == d)) := by
  have hcounts : ∀ d : Str,
      mdSucc (crawl_links e user links).2 d
        = links.countP (fun x => netloc x == d && extractOk e user x)
      ∧ mdTotal (crawl_links e user links).2 d
        = links.countP (fun x => netloc x == d) := by
    intro d
    have hs := (crawl_fold_counts e user links [] d).1
    have ht := (crawl_fold_counts e user links [] d).2
    constructor
    · simpa [crawl_links, mdSucc] using hs
    · simpa [crawl_links, mdTotal] using ht
  refine ⟨rfl, ?_, hcounts⟩
  rw [(hcounts (netloc l)).1, (hcounts (netloc l)).2]
  apply countP_lt_of_mem _ _ _ ?_ l hmem ?_ ?_
  · intro a _ hp
    exact (Bool.and_eq_true _ _).mp hp |>.1
  · exact beq_iff_eq.mpr rfl
  · rw [hfail]
    exact Bool.and_false _

/-- C4 witness: the spec's three-link batch where the second `a.com` link is
guaranteed to fail still returns all three links and records the failure. -/
theorem c4_failure_isolation_witness :
    (crawl_links
        (fun _ l _ => if l == lit "https://a.com/2" then .error .extractFailed else .ok ())
        { id := 3, first_name := lit "Ada", last_name := lit "Lovelace" }
        [lit "https://a.com/1", lit "https://a.com/2", lit "https://b.com/1"]).1
      = [lit "https://a.com/1", lit "https://a.com/2", lit "https://b.com/1"]
    ∧ mdSucc (crawl_links
        (fun _ l _ => if l == lit "https://a.com/2" then .error .extractFailed else .ok ())
        { id := 3, first_name := lit "Ada", last_name := lit "Lovelace" }
        [lit "https://a.com/1", lit "https://a.com/2", lit "https://b.com/1"]).2
        (netloc (lit "https://a.com/2"))
      < mdTotal (crawl_links
        (fun _ l _ => if l == lit "https://a.com/2" then .error .extractFailed else .ok ())
        { id := 3, first_name := lit "Ada", last_name := lit "Lovelace" }
        [lit "https://a.com/1", lit "https://a.com/2", lit "https://b.com/1"]).2
        (netloc (lit "https://a.com/2")) :=
  ⟨(c4_failure_isolation
      (fun _ l _ => if l == lit "https://a.com/2" then .error .extractFailed else .ok ())
      { id := 3, first_name := lit "Ada", last_name := lit "Lovelace" }
      [lit "https://a.com/1", lit "https://a.com/2", lit "https://b.com/1"]
      (lit "https://a.com/2") (by decide) (by decide)).1,
   (c4_failure_isolation
      (fun _ l _ => if l == lit "https://a.com/2" then .error .extractFailed else .ok ())
      { id := 3, first_name := lit "Ada", last_name := lit "Lovelace" }
      [lit "https://a.com/1", lit "https://a.com/2", lit "https://b.com/1"]
      (lit "https://a.com/2") (by decide) (by decide)).2.1⟩

end LlmTwin
